import Mathlib

/-!
Shallow embedding of the mqtt_gnss repository (GNSS sender in
src/gnss_sender.cpp, GNSS receiver in the unnamed receiver translation
unit) together with proofs settling the frozen specification claims.

Strings are modelled as `List Char`; every character produced by the
program is ASCII, so `Char.toNat` is exactly the byte value.  Machine
bytes (`unsigned char`) are modelled as `Nat` with an explicit `% 256`
where the C++ value wraps.  The two `double` quantities (`latMinutes`,
`longMinutes`) are exact multiples of 10^-6 minutes by construction
(`rand() % 1000000` scaled by `/ 1000000` and `* 60`); they are modelled
exactly in micro-minutes (`Nat`), and `std::to_string(double)` (printf
"%f", six fractional digits) is modelled on that exact value — the IEEE
double sits within 2^-46 of the exact value, far below the 0.5e-6
rounding threshold of "%f", so the printed text is identical.
-/

/-! ## Characters and decimal/hexadecimal rendering -/

/-- The sixteen digit characters used by decimal and uppercase
hexadecimal rendering (`std::hex << std::uppercase`). -/
def hexDigits : List Char :=
  ['0','1','2','3','4','5','6','7','8','9','A','B','C','D','E','F']

/-- Digit value to character, as printed by `operator<<` with
`std::uppercase` (used with arguments below 16 only). -/
def digitChar (d : Nat) : Char :=
  match d with
  | 0 => '0' | 1 => '1' | 2 => '2' | 3 => '3' | 4 => '4'
  | 5 => '5' | 6 => '6' | 7 => '7' | 8 => '8' | 9 => '9'
  | 10 => 'A' | 11 => 'B' | 12 => 'C' | 13 => 'D' | 14 => 'E'
  | _ => 'F'

/-- Fuel-driven decimal rendering loop: emits the digits of `n` in the
usual most-significant-first order.  The fuel is only a structural
termination device; `n + 1` steps always suffice since each step divides
`n` by ten. -/
def natDigitsAux : Nat → Nat → List Char → List Char
  | 0, _, acc => acc
  | fuel + 1, n, acc =>
    if n < 10 then digitChar n :: acc
    else natDigitsAux fuel (n / 10) (digitChar (n % 10) :: acc)

/-- Decimal rendering of a nonnegative integer, as produced by
`std::to_string(int)` for the nonnegative values this program prints. -/
def natDigits (n : Nat) : List Char := natDigitsAux (n + 1) n []

/-- `std::setw(2) << std::setfill('0')` applied to a nonnegative integer:
pad a single digit with a leading zero, print two or more digits as is. -/
def pad2 (n : Nat) : List Char :=
  if n < 10 then '0' :: natDigits n else natDigits n

/-- Zero-padding to six digits: the fractional part of printf "%f"
rendering (always used with `n < 1000000`). -/
def pad6 (n : Nat) : List Char :=
  List.replicate (6 - (natDigits n).length) '0' ++ natDigits n

/-- `std::to_string(double)` ("%f": six fractional digits) applied to the
minutes value, given exactly in micro-minutes (`m` micro-minutes encode
the value `m / 10^6`).  The integer part is printed without padding, the
fractional part with exactly six zero-padded digits. -/
def minutesToString (m : Nat) : List Char :=
  natDigits (m / 1000000) ++ '.' :: pad6 (m % 1000000)

/-! ## ChecksumEngine (gnss_sender.cpp, calculateChecksum) -/

/-- The XOR accumulation loop of `calculateChecksum`: `unsigned char
checksum = 0; for (i = 1; ...) checksum ^= sentence[i];` folded over the
listed bytes (the caller drops the byte at index 0).  The `% 256` is the
wrap of the `unsigned char` store. -/
def computeXor (l : List Char) : Nat :=
  l.foldl (fun a c => (a ^^^ c.toNat) % 256) 0

/-- The hex formatting step of `calculateChecksum`: `std::hex <<
std::uppercase << std::setw(2) << std::setfill('0')`.  For values below
256 (always the case for the XOR fold) this is exactly two uppercase
hex digits, zero-padded. -/
def toHex2 (b : Nat) : List Char := [digitChar (b / 16), digitChar (b % 16)]

/-- `calculateChecksum` (gnss_sender.cpp lines 158-169): XOR-fold the
sentence bytes from index 1 onward and render as two uppercase hex
digits. -/
def calculateChecksum (s : List Char) : List Char :=
  toHex2 (computeXor (s.drop 1))

/-! ## FixGenerator inputs (clock and random source) -/

/-- The `std::tm` fields read by the sender (`gmtime` output):
`tm_hour`, `tm_min`, `tm_sec`, `tm_mday`, `tm_mon` (0-based month) and
`tm_year` (years since 1900). -/
structure TimeInput where
  hour : Nat
  minute : Nat
  sec : Nat
  mday : Nat
  mon : Nat
  year : Nat

/-- The seven `rand()` draws consumed by `generateGNSSData`, in source
order: latitude degrees, latitude fraction, longitude degrees, longitude
fraction, and the three direction draws. -/
structure RandInput where
  rLat : Nat
  rLatFrac : Nat
  rLong : Nat
  rLongFrac : Nat
  rLatDir : Nat
  rLonDir : Nat
  rVarDir : Nat

/-- `getFormattedTime` (gnss_sender.cpp lines 127-135): "HHMMSS.00". -/
def getFormattedTime (t : TimeInput) : List Char :=
  pad2 t.hour ++ pad2 t.minute ++ pad2 t.sec ++ ".00".toList

/-- `getFormattedDate` (gnss_sender.cpp lines 143-150): "DDMMYY". -/
def getFormattedDate (t : TimeInput) : List Char :=
  pad2 t.mday ++ pad2 (t.mon + 1) ++ pad2 (t.year % 100)

/-- The position-fix values held in the sender's locals at the point the
sentence is assembled (gnss_sender.cpp lines 50-69).  Minutes are stored
exactly, in micro-minutes.  Speed, course, magnetic variation, status
and mode are compile-time fixed in the source and appear as literals in
`encodeFix`. -/
structure PositionFix where
  utc : List Char
  date : List Char
  latDegrees : Nat
  latMinutesMicro : Nat
  longDegrees : Nat
  longMinutesMicro : Nat
  latDirection : Char
  lonDirection : Char
  varDirection : Char

/-- The value generation part of `generateGNSSData` (gnss_sender.cpp
lines 46-69): timestamp formatting, `rand() % 90` / `rand() % 180`
degrees, `rand() % 1000000 / 1000000.0` fraction converted to minutes
(`* 60`, hence `60 * k` micro-minutes), and the three direction draws
(`rand() % 2 == 0` selects the first letter). -/
def makeFix (t : TimeInput) (r : RandInput) : PositionFix :=
  { utc := getFormattedTime t
  , date := getFormattedDate t
  , latDegrees := r.rLat % 90
  , latMinutesMicro := 60 * (r.rLatFrac % 1000000)
  , longDegrees := r.rLong % 180
  , longMinutesMicro := 60 * (r.rLongFrac % 1000000)
  , latDirection := if r.rLatDir % 2 = 0 then 'N' else 'S'
  , lonDirection := if r.rLonDir % 2 = 0 then 'E' else 'W'
  , varDirection := if r.rVarDir % 2 = 0 then 'E' else 'W' }

/-- The sentence text assembled by `generateGNSSData` before the `*` and
checksum are appended (gnss_sender.cpp lines 72-81), exactly in source
concatenation order. -/
def nmeaBody (f : PositionFix) : List Char :=
  "$GPRMC,".toList ++ f.utc ++ ",".toList
    ++ "A,".toList
    ++ natDigits f.latDegrees ++ minutesToString f.latMinutesMicro
    ++ ",".toList ++ [f.latDirection] ++ ",".toList
    ++ natDigits f.longDegrees ++ minutesToString f.longMinutesMicro
    ++ ",".toList ++ [f.lonDirection] ++ ",".toList
    ++ "0.0,0.0,".toList
    ++ f.date ++ ",".toList
    ++ "0.0,".toList
    ++ [f.varDirection]
    ++ ",A".toList

/-- The encode step of `generateGNSSData` (gnss_sender.cpp lines 72-84):
assemble the sentence body from the fix values, then append `*` and the
checksum of the body (`nmeaData += "*" + calculateChecksum(nmeaData)`). -/
def encodeFix (f : PositionFix) : List Char :=
  nmeaBody f ++ '*' :: calculateChecksum (nmeaBody f)

/-- `generateGNSSData` (gnss_sender.cpp lines 44-85): draw a fix from the
clock and the random source, then encode it. -/
def generateGNSSData (t : TimeInput) (r : RandInput) : List Char :=
  encodeFix (makeFix t r)

/-! ## Receiver-side validator (receiver translation unit) -/

/-- Whether `needle` occurs in `hay` starting at index `i`
(`std::string` comparison of `needle.length()` characters). -/
def matchesAt (hay needle : List Char) (i : Nat) : Bool :=
  decide ((hay.drop i).take needle.length = needle)

/-- Search downward from index `i` for the highest occurrence position,
as `std::string::rfind` does. -/
def rfindAux (hay needle : List Char) : Nat → Option Nat
  | 0 => if matchesAt hay needle 0 then some 0 else none
  | i + 1 =>
    if matchesAt hay needle (i + 1) then some (i + 1)
    else rfindAux hay needle i

/-- `std::string::rfind(needle, pos)`: the largest index `i ≤ pos` at
which `needle` occurs in `hay`, if any. -/
def stringRfind (hay needle : List Char) (pos : Nat) : Option Nat :=
  rfindAux hay needle (min pos hay.length)

/-- `validateNMEAFormat` (receiver lines 125-138):
`gnssData.rfind("$GPRMC", 0) == 0`.  Console logging is not modelled. -/
def validateNMEAFormat (gnssData : List Char) : Bool :=
  stringRfind gnssData "$GPRMC".toList 0 == some 0

/-! ## ChecksumEngine.verify (spec-modelled) and sentence parsing -/

/-- The sentence content strictly between index 0 (the leading `$`) and
the first `*`, exclusive. -/
def bodyOf (s : List Char) : List Char :=
  (s.takeWhile (fun c => c != '*')).drop 1

/-- The sentence content strictly after the first `*`. -/
def afterStar (s : List Char) : List Char :=
  (s.dropWhile (fun c => c != '*')).drop 1

/-- ASCII upper-casing of one character (for the case-insensitive hex
comparison). -/
def toUpperChar (c : Char) : Char :=
  if 97 ≤ c.toNat ∧ c.toNat ≤ 122 then Char.ofNat (c.toNat - 32) else c

/-- Case-insensitive character-list equality. -/
def caselessEq (a b : List Char) : Bool :=
  decide (a.map toUpperChar = b.map toUpperChar)

/-- Modelled from the spec: `ChecksumEngine.verify` has no implementation
in the repository sources (only `compute`, i.e. `calculateChecksum`,
exists); modelled from spec section 4.1: recompute the XOR fold over the
substring between `$` and `*`, compare case-insensitively to the hex
digits that follow the `*`, and return false when the `*` delimiter is
absent. -/
def verify (s : List Char) : Bool :=
  if s.any (fun c => c == '*') then
    caselessEq (afterStar s) (toHex2 (computeXor (bodyOf s)))
  else false

/-- Flip bit `k` of the byte at index `i` (used to state the
tamper-detection property). -/
def mutateBit : List Char → Nat → Nat → List Char
  | [], _, _ => []
  | c :: t, 0, k => Char.ofNat (c.toNat ^^^ 2 ^ k) :: t
  | c :: t, i + 1, k => c :: mutateBit t i k

/-! ## Field decomposition (for the sentence-shape claim) -/

/-- Split a character list at every comma (each comma is a separator; no
piece contains a comma). -/
def splitFields : List Char → List (List Char)
  | [] => [[]]
  | c :: t =>
    if c = ',' then [] :: splitFields t
    else
      match splitFields t with
      | [] => [[c]]
      | f :: fs => (c :: f) :: fs

/-- Join fields back with comma separators (the inverse wire layout of
`splitFields` for comma-free fields). -/
def joinFields : List (List Char) → List Char
  | [] => []
  | [f] => f
  | f :: fs => f ++ ',' :: joinFields fs

/-- The comma-separated fields of a sentence: everything after the
`$GPRMC,` prefix (seven characters) and before the first `*`, split at
commas. -/
def fieldsOf (s : List Char) : List (List Char) :=
  splitFields ((s.takeWhile (fun c => c != '*')).drop 7)

/-! ## ReceiveLoop (receiver translation unit, main loop lines 240-263) -/

/-- The receiver state touched by the loop: the single shared inbound
buffer (`receivedMessage`), plus the observable histories — log lines
written by `logGNSSData`, calls to `validateNMEAFormat`, and rows
inserted by `storeValidData`. -/
structure LoopState where
  buffer : List Char
  logged : List (List Char)
  validated : List (List Char)
  db : List (List Char)
deriving DecidableEq

/-- The transport poll (`mosquitto_loop`): each delivery dispatched
during the poll runs `on_message` (receiver lines 88-91), which
overwrites `receivedMessage` with the payload — last write wins. -/
def pollPhase (msgs : List (List Char)) (s : LoopState) : LoopState :=
  { s with buffer := msgs.foldl (fun _ m => m) s.buffer }

/-- The body of one loop iteration after the poll (receiver lines
246-262): if the buffer is non-empty, log it, validate it, insert it
into the database exactly when validation succeeds, and clear the
buffer; otherwise do nothing. -/
def processPhase (s : LoopState) : LoopState :=
  if s.buffer.isEmpty then s
  else
    { buffer := []
    , logged := s.logged ++ [s.buffer]
    , validated := s.validated ++ [s.buffer]
    , db := if validateNMEAFormat s.buffer then s.db ++ [s.buffer] else s.db }

/-- One full poll-and-process cycle of the receive loop. -/
def cycle (msgs : List (List Char)) (s : LoopState) : LoopState :=
  processPhase (pollPhase msgs s)

/-- External input to one loop iteration: the value of the atomic
`running` flag at the `while (running)` check, and the payloads the
transport delivers during that iteration's poll. -/
structure IterInput where
  running : Bool
  msgs : List (List Char)

/-- The receive loop over a finite schedule of iteration inputs: each
iteration first reads `running` (halting immediately when it is false,
leaving the rest of the schedule unconsumed) and otherwise performs one
full cycle.  Also counts the number of cycles actually executed. -/
def runLoop : List IterInput → LoopState → LoopState × Nat
  | [], s => (s, 0)
  | inp :: rest, s =>
    if inp.running then
      let out := runLoop rest (cycle inp.msgs s)
      (out.1, out.2 + 1)
    else (s, 0)

/-- The twelve comma-separated fields of a generated sentence, in wire
order: UTC time, status, latitude, latitude hemisphere, longitude,
longitude hemisphere, speed, course, date, magnetic variation,
variation direction, positioning mode. -/
def sentenceFields (f : PositionFix) : List (List Char) :=
  [ f.utc, ['A']
  , natDigits f.latDegrees ++ minutesToString f.latMinutesMicro
  , [f.latDirection]
  , natDigits f.longDegrees ++ minutesToString f.longMinutesMicro
  , [f.lonDirection]
  , "0.0".toList, "0.0".toList
  , f.date
  , "0.0".toList
  , [f.varDirection]
  , ['A'] ]

/-- A concrete clock reading (10:45:12 UTC, 1 Oct 2024). -/
def exTime : TimeInput := ⟨10, 45, 12, 1, 9, 124⟩

/-- A concrete random draw. -/
def exRand : RandInput := ⟨37, 502715, 76, 583318, 0, 1, 0⟩

/-- A concrete position fix. -/
def fix0 : PositionFix := makeFix exTime exRand

/-! ## Character-class helper lemmas -/

/-- Characters that may occur in a comma-separated field of the
generated sentence. -/
def fieldAllowed : List Char := hexDigits ++ ['.', 'N', 'S', 'E', 'W']

/-- Characters that may occur in the generated sentence body (before the
`*`). -/
def sentAllowed : List Char := fieldAllowed ++ [',', '$', 'G', 'P', 'R', 'M']

theorem digitChar_mem (d : Nat) : digitChar d ∈ hexDigits := by
  unfold digitChar
  split <;> decide

theorem natDigitsAux_sub (fuel : Nat) : ∀ n acc, (∀ c ∈ acc, c ∈ hexDigits) →
    ∀ c ∈ natDigitsAux fuel n acc, c ∈ hexDigits := by
  induction fuel with
  | zero => intro n acc hacc c hc; exact hacc c hc
  | succ fuel ih =>
    intro n acc hacc c hc
    rw [natDigitsAux] at hc
    split at hc
    · rcases List.mem_cons.mp hc with h | h
      · exact h ▸ digitChar_mem n
      · exact hacc c h
    · refine ih (n / 10) _ ?_ c hc
      intro d hd
      rcases List.mem_cons.mp hd with h | h
      · exact h ▸ digitChar_mem (n % 10)
      · exact hacc d h

theorem natDigits_sub (n : Nat) : ∀ c ∈ natDigits n, c ∈ hexDigits :=
  natDigitsAux_sub (n + 1) n [] (by simp)

theorem pad2_sub (n : Nat) : ∀ c ∈ pad2 n, c ∈ hexDigits := by
  intro c hc
  unfold pad2 at hc
  split at hc
  · rcases List.mem_cons.mp hc with h | h
    · exact h ▸ (by decide)
    · exact natDigits_sub n c h
  · exact natDigits_sub n c hc

theorem pad6_sub (n : Nat) : ∀ c ∈ pad6 n, c ∈ hexDigits := by
  intro c hc
  unfold pad6 at hc
  rcases List.mem_append.mp hc with h | h
  · exact (List.eq_of_mem_replicate h) ▸ (by decide)
  · exact natDigits_sub n c h

theorem hex_sub_field : ∀ c ∈ hexDigits, c ∈ fieldAllowed := by decide

theorem minutesToString_sub (m : Nat) : ∀ c ∈ minutesToString m, c ∈ fieldAllowed := by
  intro c hc
  unfold minutesToString at hc
  rcases List.mem_append.mp hc with h | h
  · exact hex_sub_field c (natDigits_sub _ c h)
  · rcases List.mem_cons.mp h with h | h
    · exact h ▸ (by decide)
    · exact hex_sub_field c (pad6_sub _ c h)

theorem getFormattedTime_sub (t : TimeInput) :
    ∀ c ∈ getFormattedTime t, c ∈ fieldAllowed := by
  intro c hc
  unfold getFormattedTime at hc
  simp only [List.append_assoc, List.mem_append] at hc
  rcases hc with h | h | h | h
  · exact hex_sub_field c (pad2_sub _ c h)
  · exact hex_sub_field c (pad2_sub _ c h)
  · exact hex_sub_field c (pad2_sub _ c h)
  · revert h; revert c; decide

theorem getFormattedDate_sub (t : TimeInput) :
    ∀ c ∈ getFormattedDate t, c ∈ fieldAllowed := by
  intro c hc
  unfold getFormattedDate at hc
  simp only [List.append_assoc, List.mem_append] at hc
  rcases hc with h | h | h
  · exact hex_sub_field c (pad2_sub _ c h)
  · exact hex_sub_field c (pad2_sub _ c h)
  · exact hex_sub_field c (pad2_sub _ c h)

/-! ## Sentence-shape helper lemmas -/

theorem nmeaBody_sub (t : TimeInput) (r : RandInput) :
    ∀ c ∈ nmeaBody (makeFix t r), c ∈ sentAllowed := by
  intro c hc
  unfold nmeaBody at hc
  simp only [List.append_assoc, List.mem_append] at hc
  have hfield : c ∈ fieldAllowed → c ∈ sentAllowed := by
    intro h; unfold sentAllowed; exact List.mem_append.mpr (Or.inl h)
  have hhex : c ∈ hexDigits → c ∈ sentAllowed := fun h => hfield (hex_sub_field c h)
  have hpre : ∀ x ∈ "$GPRMC,".toList, x ∈ sentAllowed := by decide
  have hcom : ∀ x ∈ ",".toList, x ∈ sentAllowed := by decide
  have hac : ∀ x ∈ "A,".toList, x ∈ sentAllowed := by decide
  have hsp : ∀ x ∈ "0.0,0.0,".toList, x ∈ sentAllowed := by decide
  have hvr : ∀ x ∈ "0.0,".toList, x ∈ sentAllowed := by decide
  have hca : ∀ x ∈ ",A".toList, x ∈ sentAllowed := by decide
  rcases hc with h | h | h | h | h | h | h | h | h | h | h | h | h | h | h | h | h | h | h | h
  · exact hpre c h
  · exact hfield (getFormattedTime_sub t c h)
  · exact hcom c h
  · exact hac c h
  · exact hhex (natDigits_sub _ c h)
  · exact hfield (minutesToString_sub _ c h)
  · exact hcom c h
  · rcases List.mem_singleton.mp h with rfl
    simp only [makeFix]
    split <;> decide
  · exact hcom c h
  · exact hhex (natDigits_sub _ c h)
  · exact hfield (minutesToString_sub _ c h)
  · exact hcom c h
  · rcases List.mem_singleton.mp h with rfl
    simp only [makeFix]
    split <;> decide
  · exact hcom c h
  · exact hsp c h
  · exact hfield (getFormattedDate_sub t c h)
  · exact hcom c h
  · exact hvr c h
  · rcases List.mem_singleton.mp h with rfl
    simp only [makeFix]
    split <;> decide
  · exact hca c h

theorem takeWhile_append_all {p : Char → Bool} (B : List Char) (x : Char)
    (rest : List Char) (hB : ∀ c ∈ B, p c = true) (hx : p x = false) :
    (B ++ x :: rest).takeWhile p = B := by
  induction B with
  | nil => simp [List.takeWhile_cons, hx]
  | cons a t ih =>
    have ha : p a = true := hB a (List.mem_cons_self a t)
    simp [List.cons_append, List.takeWhile_cons, ha,
      ih (fun c hc => hB c (List.mem_cons_of_mem a hc))]

theorem dropWhile_append_all {p : Char → Bool} (B : List Char) (x : Char)
    (rest : List Char) (hB : ∀ c ∈ B, p c = true) (hx : p x = false) :
    (B ++ x :: rest).dropWhile p = x :: rest := by
  induction B with
  | nil => simp [List.dropWhile_cons, hx]
  | cons a t ih =>
    have ha : p a = true := hB a (List.mem_cons_self a t)
    simp [List.cons_append, List.dropWhile_cons, ha,
      ih (fun c hc => hB c (List.mem_cons_of_mem a hc))]

theorem sentAllowed_notStar : ∀ c ∈ sentAllowed, (c != '*') = true := by decide

theorem nmeaBody_notStar (t : TimeInput) (r : RandInput) :
    ∀ c ∈ nmeaBody (makeFix t r), (c != '*') = true :=
  fun c hc => sentAllowed_notStar c (nmeaBody_sub t r c hc)

theorem generate_decomp (t : TimeInput) (r : RandInput) :
    generateGNSSData t r =
      nmeaBody (makeFix t r)
        ++ '*' :: toHex2 (computeXor ((nmeaBody (makeFix t r)).drop 1)) := rfl

theorem generate_bodyOf (t : TimeInput) (r : RandInput) :
    bodyOf (generateGNSSData t r) = (nmeaBody (makeFix t r)).drop 1 := by
  unfold bodyOf
  rw [generate_decomp,
    takeWhile_append_all _ _ _ (nmeaBody_notStar t r) (by decide)]

theorem generate_afterStar (t : TimeInput) (r : RandInput) :
    afterStar (generateGNSSData t r) =
      toHex2 (computeXor ((nmeaBody (makeFix t r)).drop 1)) := by
  unfold afterStar
  rw [generate_decomp,
    dropWhile_append_all _ _ _ (nmeaBody_notStar t r) (by decide)]
  rfl

/-! ## Validator helper lemmas -/

theorem take_len_eq_iff (s needle : List Char) :
    s.take needle.length = needle ↔ ∃ rest, s = needle ++ rest := by
  constructor
  · intro h
    have hsplit := (List.take_append_drop needle.length s).symm
    rw [h] at hsplit
    exact ⟨s.drop needle.length, hsplit⟩
  · rintro ⟨rest, rfl⟩
    exact List.take_left needle rest

theorem validate_iff (s : List Char) :
    validateNMEAFormat s = true ↔ ∃ rest, s = "$GPRMC".toList ++ rest := by
  unfold validateNMEAFormat stringRfind
  rw [Nat.zero_min]
  unfold rfindAux
  unfold matchesAt
  rw [List.drop_zero]
  rcases h : decide (s.take "$GPRMC".toList.length = "$GPRMC".toList) with _ | _
  · simp only [Bool.false_eq_true, if_false]
    have hne : ¬ (s.take "$GPRMC".toList.length = "$GPRMC".toList) :=
      of_decide_eq_false h
    simp only [show ((none : Option Nat) == some 0) = false by rfl,
      Bool.false_eq_true, false_iff]
    rw [← take_len_eq_iff]
    exact hne
  · simp only [if_true]
    have heq : s.take "$GPRMC".toList.length = "$GPRMC".toList :=
      of_decide_eq_true h
    simp only [show ((some 0 : Option Nat) == some 0) = true by rfl, true_iff]
    exact (take_len_eq_iff s _).mp heq

theorem generate_prefix_gprmc (t : TimeInput) (r : RandInput) :
    ∃ rest, generateGNSSData t r = "$GPRMC".toList ++ rest := by
  rw [generate_decomp]
  unfold nmeaBody
  rw [show "$GPRMC,".toList = "$GPRMC".toList ++ [','] from by decide]
  simp only [List.append_assoc]
  exact ⟨_, rfl⟩

theorem generate_head (t : TimeInput) (r : RandInput) :
    (generateGNSSData t r).head? = some '$' := by
  rcases generate_prefix_gprmc t r with ⟨rest, h⟩
  rw [h]
  rw [show "$GPRMC".toList = '$' :: "GPRMC".toList from by decide]
  rfl

theorem toHex2_sub (b : Nat) : ∀ c ∈ toHex2 b, c ∈ hexDigits := by
  intro c hc
  unfold toHex2 at hc
  rcases List.mem_cons.mp hc with h | h
  · exact h ▸ digitChar_mem _
  · rcases List.mem_cons.mp h with h2 | h2
    · exact h2 ▸ digitChar_mem _
    · cases List.not_mem_nil c h2

/-- Claim C1: in every sentence returned by the encoder
(`generateGNSSData`), the two characters following the `*` are exactly
the two uppercase zero-padded hex digits of the XOR fold of all bytes
strictly between the leading `$` (the sentence starts with `$`) and the
`*`, both exclusive. -/
theorem checksum_field_matches_body (t : TimeInput) (r : RandInput) :
    (generateGNSSData t r).head? = some '$' ∧
    afterStar (generateGNSSData t r) =
      toHex2 (computeXor (bodyOf (generateGNSSData t r))) ∧
    (afterStar (generateGNSSData t r)).length = 2 ∧
    (∀ c ∈ afterStar (generateGNSSData t r), c ∈ hexDigits) := by
  refine ⟨generate_head t r, ?_, ?_, ?_⟩
  · rw [generate_afterStar, generate_bodyOf]
  · rw [generate_afterStar]; rfl
  · rw [generate_afterStar]
    exact toHex2_sub _

/-- Claim C2: round-trip acceptance — for every possible value of the
random source and clock, the sentence produced by the encoder is
accepted by the consumer's validator. -/
theorem encode_accepted_by_validator (t : TimeInput) (r : RandInput) :
    validateNMEAFormat (generateGNSSData t r) = true :=
  (validate_iff _).mpr (generate_prefix_gprmc t r)

/-- Claim C3: the validator returns true iff the input begins with the
literal `$GPRMC` (no field parsing, no checksum verification), and
returns false for every input whose first six characters are not
`$GPRMC`. -/
theorem validator_checks_only_gprmc (s : List Char) :
    (validateNMEAFormat s = true ↔ ∃ rest, s = "$GPRMC".toList ++ rest) ∧
    (s.take 6 ≠ "$GPRMC".toList → validateNMEAFormat s = false) := by
  refine ⟨validate_iff s, fun h => ?_⟩
  cases hb : validateNMEAFormat s with
  | false => rfl
  | true =>
    rcases (validate_iff s).mp hb with ⟨rest, rfl⟩
    exact absurd (List.take_left "$GPRMC".toList rest) h

/-- Witness for `validator_checks_only_gprmc` at the concrete
non-matching input "x". -/
theorem validator_checks_only_gprmc_witness :
    (['x'] : List Char).take 6 ≠ "$GPRMC".toList ∧
      validateNMEAFormat ['x'] = false :=
  ⟨by decide, (validator_checks_only_gprmc ['x']).2 (by decide)⟩

/-- Claim C6: encoding is deterministic in its input — the sentence
returned by `generateGNSSData` is a pure function of the extracted
position fix (timestamp and all other fields are inputs to the encode
step), and encoding equal fixes yields byte-identical sentences.  In
this shallow embedding the encode step is a function, so purity is by
construction; the theorem records the factoring through `PositionFix`
and the resulting determinism. -/
theorem encode_deterministic :
    (∀ (t : TimeInput) (r : RandInput),
      generateGNSSData t r = encodeFix (makeFix t r)) ∧
    (∀ f g : PositionFix, f = g → encodeFix f = encodeFix g) :=
  ⟨fun _ _ => rfl, fun _ _ h => h ▸ rfl⟩

/-- Witness for `encode_deterministic` at a concrete position fix. -/
theorem encode_deterministic_witness :
    fix0 = fix0 ∧ encodeFix fix0 = encodeFix fix0 :=
  ⟨rfl, encode_deterministic.2 fix0 fix0 rfl⟩

/-- Claim C7: every fix produced by the generator satisfies the data
model invariant for every value of the random source: latitude degrees
in [0,90), longitude degrees in [0,180), and both minutes values in
[0,60) (stated in exact micro-minutes: below 60 * 10^6). -/
theorem generated_fix_in_range (t : TimeInput) (r : RandInput) :
    (makeFix t r).latDegrees < 90 ∧ (makeFix t r).longDegrees < 180 ∧
    (makeFix t r).latMinutesMicro < 60000000 ∧
    (makeFix t r).longMinutesMicro < 60000000 := by
  refine ⟨?_, ?_, ?_, ?_⟩ <;> simp [makeFix] <;> omega

/-! ## Checksum algebra helper lemmas -/

theorem char_toNat_ofNat {m : Nat} (h : m < 55296) : (Char.ofNat m).toNat = m := by
  have hv : m.isValidChar := Or.inl h
  simp [Char.ofNat, hv, Char.ofNatAux, Char.toNat, UInt32.toNat, BitVec.ofNatLt]

theorem xor_mod256 (x y : Nat) : (x ^^^ y) % 256 = (x % 256) ^^^ (y % 256) := by
  rw [show (256 : Nat) = 2 ^ 8 from rfl]
  apply Nat.eq_of_testBit_eq
  intro i
  simp only [Nat.testBit_mod_two_pow, Nat.testBit_xor]
  by_cases h : i < 8 <;> simp [h]

theorem two_pow_lt_256 {k : Nat} (hk : k < 8) : (2 : Nat) ^ k < 256 := by
  calc (2 : Nat) ^ k ≤ 2 ^ 7 := Nat.pow_le_pow_right (by omega) (by omega)
  _ < 256 := by omega

theorem foldl_xor_flip (l : List Char) (k : Nat) (hk : k < 8) : ∀ a : Nat,
    l.foldl (fun x c => (x ^^^ c.toNat) % 256) (a ^^^ 2 ^ k) =
      (l.foldl (fun x c => (x ^^^ c.toNat) % 256) a) ^^^ 2 ^ k := by
  induction l with
  | nil => intro a; rfl
  | cons c t ih =>
    intro a
    simp only [List.foldl_cons]
    have hstep : ((a ^^^ 2 ^ k) ^^^ c.toNat) % 256 =
        ((a ^^^ c.toNat) % 256) ^^^ 2 ^ k := by
      rw [Nat.xor_assoc, Nat.xor_comm (2 ^ k) c.toNat, ← Nat.xor_assoc,
        xor_mod256, Nat.mod_eq_of_lt (two_pow_lt_256 hk)]
    rw [hstep, ih]

theorem computeXor_flip (b1 : List Char) (c : Char) (b2 : List Char) (k : Nat)
    (hk : k < 8) (hc : c.toNat < 256) :
    computeXor (b1 ++ Char.ofNat (c.toNat ^^^ 2 ^ k) :: b2) =
      computeXor (b1 ++ c :: b2) ^^^ 2 ^ k := by
  unfold computeXor
  rw [List.foldl_append, List.foldl_append]
  simp only [List.foldl_cons]
  have hnew : (Char.ofNat (c.toNat ^^^ 2 ^ k)).toNat = c.toNat ^^^ 2 ^ k := by
    apply char_toNat_ofNat
    have hx : c.toNat ^^^ 2 ^ k < 256 :=
      Nat.xor_lt_two_pow (n := 8) hc (two_pow_lt_256 hk)
    omega
  rw [hnew]
  have hstep : ∀ A : Nat, (A ^^^ (c.toNat ^^^ 2 ^ k)) % 256 =
      ((A ^^^ c.toNat) % 256) ^^^ 2 ^ k := by
    intro A
    rw [← Nat.xor_assoc, xor_mod256, Nat.mod_eq_of_lt (two_pow_lt_256 hk)]
  rw [hstep, foldl_xor_flip b2 k hk]

theorem foldl_xor_bound (l : List Char) : ∀ a : Nat,
    l.foldl (fun x c => (x ^^^ c.toNat) % 256) a = a ∨
      l.foldl (fun x c => (x ^^^ c.toNat) % 256) a < 256 := by
  induction l with
  | nil => intro a; exact Or.inl rfl
  | cons c t ih =>
    intro a
    simp only [List.foldl_cons]
    rcases ih ((a ^^^ c.toNat) % 256) with h | h
    · right; rw [h]; exact Nat.mod_lt _ (by omega)
    · right; exact h

theorem computeXor_lt (l : List Char) : computeXor l < 256 := by
  unfold computeXor
  rcases foldl_xor_bound l 0 with h | h
  · rw [h]; omega
  · exact h

theorem digitChar_inj : ∀ x, x < 16 → ∀ y, y < 16 →
    digitChar x = digitChar y → x = y := by decide

theorem toHex2_inj (a b : Nat) (ha : a < 256) (hb : b < 256)
    (h : toHex2 a = toHex2 b) : a = b := by
  unfold toHex2 at h
  simp only [List.cons.injEq, and_true] at h
  have e1 := digitChar_inj (a / 16) (by omega) (b / 16) (by omega) h.1
  have e2 := digitChar_inj (a % 16) (by omega) (b % 16) (by omega) h.2
  omega

theorem upper_fixes_hexDigits : ∀ c ∈ hexDigits, toUpperChar c = c := by decide

theorem upper_fixes_toHex2 (b : Nat) :
    (toHex2 b).map toUpperChar = toHex2 b := by
  simp [toHex2, upper_fixes_hexDigits _ (digitChar_mem (b / 16)),
    upper_fixes_hexDigits _ (digitChar_mem (b % 16))]

theorem mutateBit_decomp : ∀ (B : List Char) (i : Nat), i < B.length → ∀ k,
    ∃ b1 c b2, B = b1 ++ c :: b2 ∧ b1.length = i ∧
      mutateBit B i k = b1 ++ Char.ofNat (c.toNat ^^^ 2 ^ k) :: b2 := by
  intro B
  induction B with
  | nil => intro i hi k; simp at hi
  | cons c t ih =>
    intro i hi k
    cases i with
    | zero => exact ⟨[], c, t, rfl, rfl, rfl⟩
    | succ j =>
      have hj : j < t.length := by simpa using hi
      rcases ih j hj k with ⟨b1, c0, b2, hB, hlen, hmut⟩
      refine ⟨c :: b1, c0, b2, by rw [List.cons_append, ← hB], by simp [hlen], ?_⟩
      show c :: mutateBit t j k = (c :: b1) ++ _ :: b2
      rw [hmut]; rfl

theorem verify_parse (B suffix : List Char)
    (hB : ∀ c ∈ B, (c != '*') = true) :
    verify ('$' :: B ++ '*' :: suffix) =
      caselessEq suffix (toHex2 (computeXor B)) := by
  have hstar : ('$' :: B ++ '*' :: suffix).any (fun c => c == '*') = true := by
    apply List.any_eq_true.mpr
    exact ⟨'*', by simp, by simp⟩
  have hB' : ∀ c ∈ '$' :: B, (c != '*') = true := by
    intro c hc
    rcases List.mem_cons.mp hc with rfl | h
    · decide
    · exact hB c h
  have hshape : ('$' :: B ++ '*' :: suffix) = ('$' :: B) ++ '*' :: suffix := rfl
  have ht : bodyOf ('$' :: B ++ '*' :: suffix) = B := by
    unfold bodyOf
    rw [hshape, takeWhile_append_all _ _ _ hB' (by decide)]
    rfl
  have ha : afterStar ('$' :: B ++ '*' :: suffix) = suffix := by
    unfold afterStar
    rw [hshape, dropWhile_append_all _ _ _ hB' (by decide)]
    rfl
  unfold verify
  rw [hstar, ht, ha]
  rfl

/-- Claim C5: `verify` returns true iff the hex digits after the `*`
equal `toHex2` of the XOR fold of the body (compared case-insensitively),
returns false when the `*` delimiter is absent, and detects every
single-bit mutation of a byte inside the body of a verifying sentence
(bytes are modelled as characters with code below 256). -/
theorem verify_contract :
    (∀ s : List Char, verify s = true ↔
       (s.any (fun c => c == '*') = true ∧
        caselessEq (afterStar s) (toHex2 (computeXor (bodyOf s))) = true)) ∧
    (∀ s : List Char, s.any (fun c => c == '*') = false → verify s = false) ∧
    (∀ (body suffix : List Char) (i k : Nat), i < body.length → k < 8 →
       (∀ c ∈ body, c.toNat < 256) → (∀ c ∈ body, ¬(c = '*')) →
       verify ('$' :: body ++ '*' :: suffix) = true →
       verify ('$' :: mutateBit body i k ++ '*' :: suffix) = false) := by
  refine ⟨?_, ?_, ?_⟩
  · intro s
    unfold verify
    cases h : s.any (fun c => c == '*') with
    | false => simp [h]
    | true => simp [h]
  · intro s h
    unfold verify
    rw [h]
    rfl
  · intro body suffix i k hi hk h256 hstar hv
    have hB : ∀ c ∈ body, (c != '*') = true := by
      intro c hc
      simpa using hstar c hc
    rw [verify_parse body suffix hB] at hv
    have hmap : suffix.map toUpperChar = toHex2 (computeXor body) := by
      have hm := of_decide_eq_true hv
      rw [upper_fixes_toHex2] at hm
      exact hm
    have hsuflen : suffix.length = 2 := by
      have hl := congrArg List.length hmap
      simpa [toHex2] using hl
    rcases mutateBit_decomp body i hi k with ⟨b1, c, b2, hsplit, hlen, hmut⟩
    rw [hmut]
    have hc256 : c.toNat < 256 := by
      refine h256 c ?_
      rw [hsplit]
      exact List.mem_append_right _ (List.mem_cons_self c b2)
    have hxorne : computeXor (b1 ++ Char.ofNat (c.toNat ^^^ 2 ^ k) :: b2) ≠
        computeXor body := by
      rw [hsplit, computeXor_flip b1 c b2 k hk hc256]
      intro habs
      have h2 := congrArg (fun x => computeXor (b1 ++ c :: b2) ^^^ x) habs
      simp only [← Nat.xor_assoc, Nat.xor_self, Nat.zero_xor] at h2
      have hpos : (0 : Nat) < 2 ^ k := Nat.pos_pow_of_pos k (by omega)
      omega
    by_cases hcs : Char.ofNat (c.toNat ^^^ 2 ^ k) = '*'
    · have hre : ('$' :: (b1 ++ Char.ofNat (c.toNat ^^^ 2 ^ k) :: b2)
            ++ '*' :: suffix) =
          ('$' :: b1 ++ '*' :: (b2 ++ '*' :: suffix)) := by
        rw [hcs]
        simp
      rw [hre]
      have hb1 : ∀ x ∈ b1, (x != '*') = true := by
        intro x hx
        refine hB x ?_
        rw [hsplit]
        exact List.mem_append_left _ hx
      rw [verify_parse b1 (b2 ++ '*' :: suffix) hb1]
      unfold caselessEq
      apply decide_eq_false
      intro habs
      have hl := congrArg List.length habs
      simp [toHex2] at hl
      omega
    · have hb' : ∀ x ∈ b1 ++ Char.ofNat (c.toNat ^^^ 2 ^ k) :: b2,
          (x != '*') = true := by
        intro x hx
        rcases List.mem_append.mp hx with h | h
        · refine hB x ?_
          rw [hsplit]
          exact List.mem_append_left _ h
        · rcases List.mem_cons.mp h with rfl | h
          · simpa using hcs
          · refine hB x ?_
            rw [hsplit]
            exact List.mem_append_right _ (List.mem_cons_of_mem _ h)
      rw [verify_parse _ suffix hb']
      unfold caselessEq
      apply decide_eq_false
      intro habs
      rw [upper_fixes_toHex2, hmap] at habs
      exact hxorne (toHex2_inj _ _ (computeXor_lt _) (computeXor_lt _) habs).symm

/-- Witness for `verify_contract`: the sentence "$AB*03" verifies, and
flipping bit 0 of its first body byte makes verification fail. -/
theorem verify_contract_witness :
    verify ('$' :: ['A', 'B'] ++ '*' :: ['0', '3']) = true ∧
      verify ('$' :: mutateBit ['A', 'B'] 0 0 ++ '*' :: ['0', '3']) = false :=
  ⟨by decide, verify_contract.2.2 ['A', 'B'] ['0', '3'] 0 0 (by decide)
    (by decide) (by decide) (by decide) (by decide)⟩

/-! ## Field-splitting helper lemmas -/

theorem splitFields_commaFree (F : List Char) (hF : ∀ c ∈ F, ¬(c = ',')) :
    splitFields F = [F] := by
  induction F with
  | nil => rfl
  | cons c t ih =>
    have hc : ¬(c = ',') := hF c (List.mem_cons_self c t)
    rw [splitFields, if_neg hc,
      ih (fun x hx => hF x (List.mem_cons_of_mem c hx))]

theorem splitFields_field_comma (F rest : List Char)
    (hF : ∀ c ∈ F, ¬(c = ',')) :
    splitFields (F ++ ',' :: rest) = F :: splitFields rest := by
  induction F with
  | nil =>
    rw [List.nil_append, splitFields, if_pos rfl]
  | cons c t ih =>
    have hc : ¬(c = ',') := hF c (List.mem_cons_self c t)
    rw [List.cons_append, splitFields, if_neg hc,
      ih (fun x hx => hF x (List.mem_cons_of_mem c hx))]

theorem splitFields_joinFields : ∀ fs : List (List Char), fs ≠ [] →
    (∀ f ∈ fs, ∀ c ∈ f, ¬(c = ',')) → splitFields (joinFields fs) = fs := by
  intro fs
  induction fs with
  | nil => intro h; exact absurd rfl h
  | cons f gs ih =>
    intro _ hcf
    cases gs with
    | nil =>
      rw [show joinFields [f] = f from rfl]
      exact splitFields_commaFree f (hcf f (by simp))
    | cons g gs' =>
      rw [show joinFields (f :: g :: gs') = f ++ ',' :: joinFields (g :: gs')
        from rfl]
      rw [splitFields_field_comma f _ (hcf f (by simp))]
      rw [ih (by simp) (fun x hx c hc => hcf x (List.mem_cons_of_mem f hx) c hc)]

theorem nmeaBody_fields (f : PositionFix) :
    (nmeaBody f).drop 7 = joinFields (sentenceFields f) := by
  unfold nmeaBody sentenceFields
  rw [show ",".toList = [','] from by decide,
    show "A,".toList = ['A', ','] from by decide,
    show "0.0,0.0,".toList = ['0','.','0',',','0','.','0',','] from by decide,
    show "0.0,".toList = ['0','.','0',','] from by decide,
    show ",A".toList = [',', 'A'] from by decide,
    show "0.0".toList = ['0','.','0'] from by decide,
    show "$GPRMC,".toList = ['$','G','P','R','M','C',','] from by decide]
  simp [joinFields, List.append_assoc]

theorem fieldAllowed_noComma : ∀ c ∈ fieldAllowed, ¬(c = ',') := by decide

theorem sentenceFields_commaFree (t : TimeInput) (r : RandInput) :
    ∀ x ∈ sentenceFields (makeFix t r), ∀ c ∈ x, ¬(c = ',') := by
  intro x hx
  simp only [sentenceFields, List.mem_cons, List.not_mem_nil, or_false] at hx
  have hnum : ∀ (d m : Nat) (c : Char),
      c ∈ natDigits d ++ minutesToString m → ¬(c = ',') := by
    intro d m c hc
    rcases List.mem_append.mp hc with h | h
    · exact fieldAllowed_noComma c (hex_sub_field c (natDigits_sub d c h))
    · exact fieldAllowed_noComma c (minutesToString_sub m c h)
  have hspd : ∀ c ∈ "0.0".toList, ¬(c = ',') := by decide
  rcases hx with rfl|rfl|rfl|rfl|rfl|rfl|rfl|rfl|rfl|rfl|rfl|rfl
  · intro c hc
    exact fieldAllowed_noComma c
      (getFormattedTime_sub t c (by simpa [makeFix] using hc))
  · decide
  · intro c hc
    exact hnum _ _ c (by simpa [makeFix] using hc)
  · intro c hc
    have hc' : c = (makeFix t r).latDirection := List.mem_singleton.mp hc
    subst hc'
    simp only [makeFix]
    split <;> decide
  · intro c hc
    exact hnum _ _ c (by simpa [makeFix] using hc)
  · intro c hc
    have hc' : c = (makeFix t r).lonDirection := List.mem_singleton.mp hc
    subst hc'
    simp only [makeFix]
    split <;> decide
  · exact hspd
  · exact hspd
  · intro c hc
    exact fieldAllowed_noComma c
      (getFormattedDate_sub t c (by simpa [makeFix] using hc))
  · exact hspd
  · intro c hc
    have hc' : c = (makeFix t r).varDirection := List.mem_singleton.mp hc
    subst hc'
    simp only [makeFix]
    split <;> decide
  · decide

theorem generate_fieldsOf (t : TimeInput) (r : RandInput) :
    fieldsOf (generateGNSSData t r) = sentenceFields (makeFix t r) := by
  unfold fieldsOf
  rw [generate_decomp,
    takeWhile_append_all _ _ _ (nmeaBody_notStar t r) (by decide),
    nmeaBody_fields]
  exact splitFields_joinFields _ (by simp [sentenceFields])
    (sentenceFields_commaFree t r)

/-- Counterexample to claim C4 as stated: at a concrete clock reading and
random draw, the sentence produced by the encoder has 12 comma-separated
fields after the `$GPRMC,` prefix, not 11. -/
theorem sentence_not_eleven_fields :
    ¬((fieldsOf (generateGNSSData exTime exRand)).length = 11) := by decide

/-- Claim C4 (amended): every sentence produced by the encoder equals
`$GPRMC,` followed by 12 comma-separated fields, then `*` and a
2-hex-digit checksum; the sentence is ASCII and contains no embedded
newline. -/
theorem sentence_shape (t : TimeInput) (r : RandInput) :
    (∃ rest, generateGNSSData t r = "$GPRMC".toList ++ rest) ∧
    (fieldsOf (generateGNSSData t r)).length = 12 ∧
    generateGNSSData t r =
      (generateGNSSData t r).takeWhile (fun c => c != '*')
        ++ '*' :: afterStar (generateGNSSData t r) ∧
    (afterStar (generateGNSSData t r)).length = 2 ∧
    (∀ c ∈ afterStar (generateGNSSData t r), c ∈ hexDigits) ∧
    (∀ c ∈ generateGNSSData t r, c.toNat < 128 ∧ ¬(c = '\n')) := by
  refine ⟨generate_prefix_gprmc t r, ?_, ?_, ?_, ?_, ?_⟩
  · rw [generate_fieldsOf]
    rfl
  · rw [generate_afterStar, generate_decomp,
      takeWhile_append_all _ _ _ (nmeaBody_notStar t r) (by decide)]
  · rw [generate_afterStar]
    rfl
  · rw [generate_afterStar]
    exact toHex2_sub _
  · intro c hc
    rw [generate_decomp] at hc
    rcases List.mem_append.mp hc with h | h
    · exact (by decide : ∀ x ∈ sentAllowed, x.toNat < 128 ∧ ¬(x = '\n')) c
        (nmeaBody_sub t r c h)
    · rcases List.mem_cons.mp h with rfl | h
      · decide
      · exact (by decide : ∀ x ∈ hexDigits, x.toNat < 128 ∧ ¬(x = '\n')) c
          (toHex2_sub _ c h)

/-! ## Receive-loop helper lemmas -/

theorem runLoop_count_le : ∀ (script : List IterInput) (s : LoopState),
    (runLoop script s).2 ≤ script.length := by
  intro script
  induction script with
  | nil => intro s; simp [runLoop]
  | cons inp rest ih =>
    intro s
    by_cases h : inp.running
    · simp only [runLoop, h, if_true, List.length_cons]
      exact Nat.succ_le_succ (ih _)
    · simp [runLoop, h]

theorem foldl_overwrite (msgs : List (List Char)) : ∀ init : List Char,
    msgs.foldl (fun _ m => m) init = msgs.getLastD init := by
  induction msgs with
  | nil => intro init; rfl
  | cons m t ih =>
    intro init
    rw [List.foldl_cons, ih, List.getLastD_cons]

/-- Claim C8: once the shutdown flag reads false (the signal handler's
write is the only transition into the stopped state), the loop executes
no further cycle beyond those whose `while (running)` check preceded the
write: the final state and cycle count over any schedule whose tail
reads false equal those of the schedule truncated at that point, and the
cycle count never exceeds the truncation length — so at most the one
in-flight cycle completes, and nothing is logged, validated, or stored
afterwards. -/
theorem shutdown_stops_loop (pre post : List IterInput) (s : LoopState)
    (hpost : ∀ inp ∈ post, inp.running = false) :
    runLoop (pre ++ post) s = runLoop pre s ∧
    (runLoop (pre ++ post) s).2 ≤ pre.length := by
  have key : ∀ (pre' : List IterInput) (s' : LoopState),
      runLoop (pre' ++ post) s' = runLoop pre' s' := by
    intro pre'
    induction pre' with
    | nil =>
      intro s'
      cases post with
      | nil => rfl
      | cons inp t =>
        have h := hpost inp (List.mem_cons_self inp t)
        simp [runLoop, h]
    | cons a t ih =>
      intro s'
      by_cases h : a.running
      · simp [runLoop, h, ih]
      · simp [runLoop, h]
  refine ⟨key pre s, ?_⟩
  rw [key pre s]
  exact runLoop_count_le pre s

/-- Witness for `shutdown_stops_loop`: one active iteration followed by a
stopped one. -/
theorem shutdown_stops_loop_witness :
    (∀ inp ∈ ([⟨false, [['a']]⟩] : List IterInput), inp.running = false) ∧
    runLoop ([⟨true, []⟩] ++ [⟨false, [['a']]⟩]) ⟨[], [], [], []⟩ =
      runLoop [⟨true, []⟩] ⟨[], [], [], []⟩ ∧
    (runLoop ([⟨true, []⟩] ++ [⟨false, [['a']]⟩]) ⟨[], [], [], []⟩).2 ≤ 1 :=
  ⟨by decide, shutdown_stops_loop [⟨true, []⟩] [⟨false, [['a']]⟩]
    ⟨[], [], [], []⟩ (by decide)⟩

/-- Claim C9: on each iteration, a non-empty buffer is logged, validated,
inserted into the store exactly when validation returns true, and
cleared; a failing message leaves the store unchanged and is discarded
(buffer cleared), and the loop keeps running regardless (the recursion
continues whenever the flag reads true, independently of the message
content). -/
theorem process_message_contract :
    (∀ s : LoopState, s.buffer ≠ [] →
      processPhase s =
        ⟨[], s.logged ++ [s.buffer], s.validated ++ [s.buffer],
          if validateNMEAFormat s.buffer then s.db ++ [s.buffer] else s.db⟩) ∧
    (∀ s : LoopState, s.buffer ≠ [] → validateNMEAFormat s.buffer = false →
      (processPhase s).db = s.db ∧ (processPhase s).buffer = []) ∧
    (∀ (inp : IterInput) (rest : List IterInput) (s : LoopState),
      inp.running = true →
      runLoop (inp :: rest) s =
        ((runLoop rest (cycle inp.msgs s)).1,
         (runLoop rest (cycle inp.msgs s)).2 + 1)) := by
  refine ⟨?_, ?_, ?_⟩
  · intro s hs
    unfold processPhase
    rw [if_neg (by simpa [List.isEmpty_iff] using hs)]
  · intro s hs hv
    unfold processPhase
    rw [if_neg (by simpa [List.isEmpty_iff] using hs)]
    exact ⟨by simp [hv], rfl⟩
  · intro inp rest s h
    simp [runLoop, h]

/-- Witness for `process_message_contract` at a concrete non-empty
buffer. -/
theorem process_message_contract_witness :
    (⟨['x'], [], [], []⟩ : LoopState).buffer ≠ [] ∧
    processPhase ⟨['x'], [], [], []⟩ =
      ⟨[], [] ++ [['x']], [] ++ [['x']],
        if validateNMEAFormat ['x'] then [] ++ [['x']] else []⟩ :=
  ⟨by decide, process_message_contract.1 ⟨['x'], [], [], []⟩ (by decide)⟩

/-- Claim C10 (implicit): an empty inbound payload is never processed —
an empty buffer leaves the state untouched, and a poll whose last
delivery is the empty string processes nothing; the buffer is empty
after every processed iteration, and one cycle logs at most one message,
so each delivered payload is handled at most once. -/
theorem empty_payload_and_at_most_once :
    (∀ s : LoopState, s.buffer = [] → processPhase s = s) ∧
    (∀ (msgs : List (List Char)) (s : LoopState), msgs.getLast? = some [] →
      (cycle msgs s).logged = s.logged ∧
      (cycle msgs s).validated = s.validated ∧
      (cycle msgs s).db = s.db) ∧
    (∀ s : LoopState, (processPhase s).buffer = []) ∧
    (∀ (msgs : List (List Char)) (s : LoopState),
      (cycle msgs s).logged.length ≤ s.logged.length + 1) := by
  refine ⟨?_, ?_, ?_, ?_⟩
  · intro s hs
    unfold processPhase
    rw [if_pos (by simp [hs])]
  · intro msgs s hlast
    have hbuf : (pollPhase msgs s).buffer = [] := by
      unfold pollPhase
      simp only
      rw [foldl_overwrite, List.getLastD_eq_getLast?, hlast]
      rfl
    unfold cycle processPhase
    rw [if_pos (by simp [hbuf])]
    exact ⟨rfl, rfl, rfl⟩
  · intro s
    unfold processPhase
    by_cases h : s.buffer.isEmpty
    · rw [if_pos h]
      exact List.isEmpty_iff.mp h
    · rw [if_neg h]
  · intro msgs s
    unfold cycle processPhase
    by_cases h : (pollPhase msgs s).buffer.isEmpty
    · rw [if_pos h]
      simp [pollPhase]
    · rw [if_neg h]
      simp [pollPhase]

/-- Witness for `empty_payload_and_at_most_once`: a poll delivering a
message and then the empty string processes nothing. -/
theorem empty_payload_witness :
    ([['x'], []] : List (List Char)).getLast? = some [] ∧
    (cycle [['x'], []] ⟨['y'], [], [], []⟩).logged =
      (⟨['y'], [], [], []⟩ : LoopState).logged ∧
    (cycle [['x'], []] ⟨['y'], [], [], []⟩).validated =
      (⟨['y'], [], [], []⟩ : LoopState).validated ∧
    (cycle [['x'], []] ⟨['y'], [], [], []⟩).db =
      (⟨['y'], [], [], []⟩ : LoopState).db :=
  ⟨by decide, empty_payload_and_at_most_once.2.1 [['x'], []]
    ⟨['y'], [], [], []⟩ (by decide)⟩

/-- Witness for `checksum_field_matches_body` at a concrete clock reading
and random draw. -/
theorem checksum_field_matches_body_witness :
    afterStar (generateGNSSData exTime exRand) =
      toHex2 (computeXor (bodyOf (generateGNSSData exTime exRand))) :=
  (checksum_field_matches_body exTime exRand).2.1

/-- Witness for `sentence_shape` at a concrete clock reading and random
draw. -/
theorem sentence_shape_witness :
    (fieldsOf (generateGNSSData exTime exRand)).length = 12 :=
  (sentence_shape exTime exRand).2.1
